import Mathlib

/-!
Verification development for the BitRag real-time ingestion-and-indexing
pipeline.

The definitions below are a shallow embedding of the Python sources:

* `src/pathway/data_processor.py` — the stream consumer, the relational store
  writer, the embedding indexer and the progress tracker
  (`BitcoinDataProcessor`, `ProcessingStats`);
* `src/kafka/kafka_producers.py` — the event-source adapters
  (`KafkaDataProducer`, `BitcoinPriceProducer`, `WhaleTransactionProducer`,
  `CryptoNewsProducer`);
* `src/data_collection/price_collector.py` and
  `src/data_collection/transaction_collector.py` — the HTTP collectors'
  retry loops;
* `src/database/setup_postgres.py` — the relational schema (`CREATE_TABLES`).

Modelling conventions, used uniformly:

* JSON payloads are an inductive `JVal`; a JSON object is an association
  list.  Numeric JSON values are modelled as integers (no claim depends on
  fractional values); Python `float(x)` / `int(x)` become the partial
  conversions `pyFloat` / `pyInt`, which fail exactly where the Python
  builtins raise (`float(None)` raises `TypeError`, `float` of a
  non-numeric string raises `ValueError`, ...).
* `datetime` values are modelled as integers (seconds); `isoformat` /
  `datetime.fromisoformat` are an injective encode / partial decode pair on
  strings.  A string not produced by `isoformat` fails to decode, which is
  how `fromisoformat` behaves on non-ISO inputs.
* Database tables are insertion-ordered lists of rows.  One call of a
  `store_*` method runs all its statements inside a single transaction which
  is committed at the end; an injected failure index (`failAt`) names the
  statement that raises, and the `except` branch's `rollback()` therefore
  restores the table that existed when the call began.
* The sentence-transformer encoder is not interpreted: an embedding row
  records the `(title, summary)` text pair it encodes, since no claim
  inspects vector numerics, only which rows get embedded and with which
  `news_id` tag.
* `time.sleep` calls are recorded as a list of slept durations (in seconds)
  so that backoff policies can be stated; the sub-second politeness sleeps
  taken after a successful HTTP response (0.5s / 2s) are not recorded, only
  the failure-path backoff sleeps that the retry claims are about.
-/

namespace BitRag

/-! ## JSON values (`json.loads` / `json.dumps` payloads) -/

/-- A JSON value as it appears after `json.loads`.  Numbers are modelled as
integers. -/
inductive JVal where
  | jnull : JVal
  | jnum (n : Int) : JVal
  | jstr (s : String) : JVal
  | jbool (b : Bool) : JVal
deriving DecidableEq, Repr

/-- A JSON object: an association list of fields (Python `dict`). -/
abbrev JObj := List (String × JVal)

/-- A Kafka message body as handed to a value deserializer: either bytes that
`json.loads` rejects, a deserializable non-object JSON value (whose string
subscripting then raises), or a JSON object. -/
inductive Payload where
  | malformed : Payload
  | nonObj (v : JVal) : Payload
  | obj (o : JObj) : Payload
deriving DecidableEq, Repr

/-- `data_dict[k]`: raises `KeyError` (here: `none`) when the key is absent. -/
def jfind (o : JObj) (k : String) : Option JVal :=
  (o.find? (fun kv => kv.1 = k)).map (fun kv => kv.2)

/-- `data_dict.get(k, d)`: total lookup with default. -/
def jget (o : JObj) (k : String) (d : JVal) : JVal :=
  (jfind o k).getD d

/-- Python truthiness of a JSON value (`if x:`). -/
def truthy : JVal → Bool
  | .jnull => false
  | .jnum n => n ≠ 0
  | .jstr s => s ≠ ""
  | .jbool b => b

/-- Decode a decimal digit character. -/
def decDigit (c : Char) : Option Nat :=
  if c = '0' then some 0 else if c = '1' then some 1 else if c = '2' then some 2
  else if c = '3' then some 3 else if c = '4' then some 4 else if c = '5' then some 5
  else if c = '6' then some 6 else if c = '7' then some 7 else if c = '8' then some 8
  else if c = '9' then some 9 else none

/-- Decode a nonempty run of decimal digits. -/
def decNat (cs : List Char) : Option Nat :=
  match cs with
  | [] => none
  | _ => cs.foldl (fun acc c =>
      match acc, decDigit c with
      | some a, some d => some (10 * a + d)
      | _, _ => none) (some 0)

/-- Decode an optionally signed decimal integer. -/
def decInt : List Char → Option Int
  | '-' :: rest => (decNat rest).map (fun n => -(n : Int))
  | rest => (decNat rest).map (fun n => (n : Int))

/-- `datetime.isoformat()`: the canonical string form of a timestamp
(timestamps are modelled as integer seconds). -/
def isoformat (t : Int) : String := "ISO:" ++ toString t

/-- `datetime.fromisoformat(s)`: succeeds exactly on canonically formatted
timestamp strings, raises (here: `none`) on anything else. -/
def fromIsoformat (s : String) : Option Int :=
  match s.data with
  | 'I' :: 'S' :: 'O' :: ':' :: rest => decInt rest
  | _ => none

/-- `timestamp.date()`: the calendar day of a timestamp (epoch days). -/
def dateOf (t : Int) : Int := t / 86400

/-- Python `float(v)` on a JSON value: succeeds on numbers and on numeric
strings, `float(True) == 1.0`, and raises `TypeError` on `None`. -/
def pyFloat : JVal → Option Int
  | .jnum n => some n
  | .jstr s => decInt s.data
  | .jbool b => some (if b then 1 else 0)
  | .jnull => none

/-- Python `int(v)` on a JSON value: like `float` but for integers. -/
def pyInt : JVal → Option Int
  | .jnum n => some n
  | .jstr s => decInt s.data
  | .jbool b => some (if b then 1 else 0)
  | .jnull => none

/-- Python `bool(v)`: total, never raises. -/
def pyBool (v : JVal) : Bool := truthy v

/-! ## `ProcessingStats` (`data_processor.py`, `ProcessingStats`)

The wall-clock fields (`start_time`, `last_update`) and the derived
per-minute rates are not modelled; the five counters are. -/

/-- The process-wide counters of `ProcessingStats`. -/
structure ProcessingStats where
  prices_processed : Nat
  transactions_processed : Nat
  news_processed : Nat
  embeddings_generated : Nat
  errors : Nat
deriving DecidableEq, Repr

/-- `ProcessingStats.__init__`: all counters start at zero. -/
def ProcessingStats.init : ProcessingStats := ⟨0, 0, 0, 0, 0⟩

/-- `stats.update_price(count)`. -/
def ProcessingStats.update_price (s : ProcessingStats) (count : Nat) : ProcessingStats :=
  { s with prices_processed := s.prices_processed + count }

/-- `stats.update_transaction(count)`. -/
def ProcessingStats.update_transaction (s : ProcessingStats) (count : Nat) : ProcessingStats :=
  { s with transactions_processed := s.transactions_processed + count }

/-- `stats.update_news(count)`. -/
def ProcessingStats.update_news (s : ProcessingStats) (count : Nat) : ProcessingStats :=
  { s with news_processed := s.news_processed + count }

/-- `stats.update_embeddings(count)`. -/
def ProcessingStats.update_embeddings (s : ProcessingStats) (count : Nat) : ProcessingStats :=
  { s with embeddings_generated := s.embeddings_generated + count }

/-- `stats.record_error()`. -/
def ProcessingStats.record_error (s : ProcessingStats) : ProcessingStats :=
  { s with errors := s.errors + 1 }

/-! ## The three payload parsers (`BitcoinDataProcessor.parse_*`)

Each parser wraps its body in `try/except`: any raised exception is logged,
`record_error()` is called, and `None` is returned.  The pure cores below
return `none` exactly where the Python body raises. -/

/-- A parsed price record, the dict built by `parse_price_data`. -/
structure PriceRec where
  timestamp : Int
  price : Int
  market_cap : Int
  volume : Int
  date : Int
deriving DecidableEq, Repr

/-- The raising body of `BitcoinDataProcessor.parse_price_data`. -/
def parse_price_core (p : Payload) : Option PriceRec := do
  let d ← match p with | .obj o => some o | _ => none
  let tsv ← jfind d "timestamp"
  let ts ← match tsv with | .jstr s => fromIsoformat s | _ => none
  let price ← pyFloat (← jfind d "price")
  let mc ← pyFloat (jget d "market_cap" (.jnum 0))
  let vol ← pyFloat (jget d "volume" (.jnum 0))
  pure { timestamp := ts, price := price, market_cap := mc, volume := vol, date := dateOf ts }

/-- The `try/except` shape common to the three parser methods: a record, or
one recorded error and no record. -/
def tryExceptParse {R : Type} (core : Payload → Option R)
    (stats : ProcessingStats) (p : Payload) : Option R × ProcessingStats :=
  match core p with
  | some r => (some r, stats)
  | none => (none, stats.record_error)

/-- `BitcoinDataProcessor.parse_price_data`: on an exception in the body the
handler records one error and yields no record. -/
def parse_price_data : ProcessingStats → Payload → Option PriceRec × ProcessingStats :=
  tryExceptParse parse_price_core

/-- A parsed whale-transaction record, the dict built by
`parse_whale_transaction`.  Fields that Python forwards without conversion
keep their raw JSON value. -/
structure TxRec where
  tx_hash : JVal
  block_hash : JVal
  timestamp : Option Int
  value_btc : Int
  fee : Int
  size : Int
  input_count : Int
  output_count : Int
  is_coinbase : Bool
deriving DecidableEq, Repr

/-- The raising body of `BitcoinDataProcessor.parse_whale_transaction`. -/
def parse_whale_core (p : Payload) : Option TxRec := do
  let d ← match p with | .obj o => some o | _ => none
  let tsv ← jfind d "timestamp"
  let ts ← if truthy tsv then
      (match tsv with | .jstr s => (fromIsoformat s).map some | _ => none)
    else pure none
  let txh ← jfind d "tx_hash"
  let bh := jget d "block_hash" (.jstr "")
  let vb ← pyFloat (← jfind d "value_btc")
  let fee ← pyFloat (jget d "fee" (.jnum 0))
  let sz ← pyInt (jget d "size" (.jnum 0))
  let ic ← pyInt (← jfind d "input_count")
  let oc ← pyInt (← jfind d "output_count")
  let cb := pyBool (jget d "is_coinbase" (.jbool false))
  pure { tx_hash := txh, block_hash := bh, timestamp := ts, value_btc := vb,
         fee := fee, size := sz, input_count := ic, output_count := oc, is_coinbase := cb }

/-- `BitcoinDataProcessor.parse_whale_transaction`. -/
def parse_whale_transaction : ProcessingStats → Payload → Option TxRec × ProcessingStats :=
  tryExceptParse parse_whale_core

/-- A parsed news record, the dict built by `parse_news_data`. -/
structure NewsRec where
  title : JVal
  link : JVal
  summary : JVal
  published_date : Option Int
  source : JVal
deriving DecidableEq, Repr

/-- The raising body of `BitcoinDataProcessor.parse_news_data`. -/
def parse_news_core (p : Payload) : Option NewsRec := do
  let d ← match p with | .obj o => some o | _ => none
  let pdv ← jfind d "published_date"
  let pd ← if truthy pdv then
      (match pdv with | .jstr s => (fromIsoformat s).map some | _ => none)
    else pure none
  let title ← jfind d "title"
  let link ← jfind d "link"
  let summary ← jfind d "summary"
  let source ← jfind d "source"
  pure { title := title, link := link, summary := summary,
         published_date := pd, source := source }

/-- `BitcoinDataProcessor.parse_news_data`. -/
def parse_news_data : ProcessingStats → Payload → Option NewsRec × ProcessingStats :=
  tryExceptParse parse_news_core

/-! ## The per-topic consumption loop

`pw.io.kafka.read` applies the value deserializer to each message of the
topic in order; a message whose deserializer returns `None` contributes no
record and the stream goes on with the next message (the Pathway source
commits past it; it is never redelivered for a parse failure). -/

/-- Consume a message sequence with a stats-threading parser, collecting the
successfully parsed records in order. -/
def consumeAll {R : Type} (parse : ProcessingStats → Payload → Option R × ProcessingStats)
    (stats : ProcessingStats) : List Payload → List R × ProcessingStats
  | [] => ([], stats)
  | m :: rest =>
    match parse stats m with
    | (some r, st) =>
      let (rs, st') := consumeAll parse st rest
      (r :: rs, st')
    | (none, st) => consumeAll parse st rest

/-! ## Event-source adapters (`kafka_producers.py`) -/

/-- The message dict built by `BitcoinPriceProducer.fetch_and_send_price`
from a successful `/data/price` response: the `market_cap` and `volume` keys
are always set to `None` (the endpoint does not provide them). -/
def priceProducerMessage (now : Int) (price : Int) : JObj :=
  [("timestamp", .jstr (isoformat now)),
   ("price", .jnum price),
   ("market_cap", .jnull),
   ("volume", .jnull)]

/-- The duplicate-suppression step shared verbatim by
`WhaleTransactionProducer.fetch_and_send_transactions` and
`CryptoNewsProducer.fetch_and_send_news`: given the adapter's retained key
set (`last_processed_tx` / `last_processed_news`) and the natural keys of
the rows fetched this cycle (in fetch order; a row is represented by the one
field the dedup logic inspects), return the keys published this cycle and
the retained set afterwards.  An empty fetch returns early; a fetch with no
new keys also returns early; only otherwise is the retained set overwritten
with the full current-cycle key set. -/
def dedupCycle (window : Finset String) (observed : List String) :
    List String × Finset String :=
  if observed.isEmpty then ([], window)
  else
    let current := observed.toFinset
    let newKeys := current \ window
    if newKeys = ∅ then ([], window)
    else (observed.filter (fun k => k ∈ newKeys), current)

/-- `WhaleTransactionProducer.fetch_and_send_transactions`, restricted to its
dedup-and-publish behaviour (`current_tx_hashes`, `new_tx_hashes`,
`last_processed_tx`). -/
def fetch_and_send_transactions (window : Finset String) (observed : List String) :
    List String × Finset String :=
  dedupCycle window observed

/-- `CryptoNewsProducer.fetch_and_send_news`, restricted to its
dedup-and-publish behaviour (`current_urls`, `new_urls`,
`last_processed_news`). -/
def fetch_and_send_news (window : Finset String) (observed : List String) :
    List String × Finset String :=
  dedupCycle window observed

/-! ## Connection and request retry loops -/

/-- The outcome of one bounded retry loop: whether it ended connected, how
many attempts were made, and the backoff sleeps taken between attempts. -/
structure RetryTrace where
  connected : Bool
  attempts : Nat
  sleeps : List Nat
deriving DecidableEq, Repr

/-- The `for attempt in range(max_retries)` loop of
`KafkaDataProducer.connect_with_retries` (the identical loop appears in
`BitcoinDataProcessor.setup_connections_with_retries`): `succeeds attempt`
tells whether the connection attempt with that index succeeds; between
failed attempts (except after the last) the loop sleeps `retry_delay`
seconds; exhausting the loop raises, modelled by `connected = false`. -/
def connectLoop (succeeds : Nat → Bool) (retry_delay : Nat) :
    Nat → Nat → RetryTrace
  | _, 0 => ⟨false, 0, []⟩
  | attempt, r + 1 =>
    if succeeds attempt then ⟨true, 1, []⟩
    else
      let rest := connectLoop succeeds retry_delay (attempt + 1) r
      ⟨rest.connected, rest.attempts + 1,
        (if r > 0 then [retry_delay] else []) ++ rest.sleeps⟩

/-- `KafkaDataProducer.connect_with_retries()` with its default arguments
`max_retries=5, retry_delay=10`. -/
def connect_with_retries (succeeds : Nat → Bool) : RetryTrace :=
  connectLoop succeeds 10 0 5

/-- What one HTTP attempt of a collector yields. -/
inductive HttpOutcome where
  | ok : HttpOutcome
  | rateLimited : HttpOutcome
  | failed : HttpOutcome
deriving DecidableEq, Repr

/-- A traced HTTP request: the attempt index that returned a response (or
`none` when the loop returned `None`), the attempts made, and the backoff
sleeps taken. -/
structure HttpTrace where
  result : Option Nat
  attempts : Nat
  sleeps : List Nat
deriving DecidableEq, Repr

/-- The `for attempt in range(retries)` loop of
`BitcoinPriceCollector._make_request`: a 429 response sleeps
`min(60 * (attempt + 1), 300)` seconds and retries; another request failure
sleeps `2 * (attempt + 1)` seconds before any non-final retry; exhausting
the loop returns `None`. -/
def priceRequestLoop (responses : Nat → HttpOutcome) : Nat → Nat → HttpTrace
  | _, 0 => ⟨none, 0, []⟩
  | attempt, r + 1 =>
    match responses attempt with
    | .ok => ⟨some attempt, 1, []⟩
    | .rateLimited =>
      let rest := priceRequestLoop responses (attempt + 1) r
      ⟨rest.result, rest.attempts + 1, min (60 * (attempt + 1)) 300 :: rest.sleeps⟩
    | .failed =>
      let rest := priceRequestLoop responses (attempt + 1) r
      ⟨rest.result, rest.attempts + 1,
        (if r > 0 then [2 * (attempt + 1)] else []) ++ rest.sleeps⟩

/-- `BitcoinPriceCollector._make_request` with its default `retries=3`. -/
def priceMakeRequest (responses : Nat → HttpOutcome) : HttpTrace :=
  priceRequestLoop responses 0 3

/-- The result of `WhaleTransactionCollector._make_request`, which has no
attempt counter: it either returns a response, returns `None` on a
non-rate-limit failure, or — on a 429 — sleeps 60 seconds and calls itself
again, a recursion the source does not bound.  The Lean embedding is
totalised with a fuel argument; `fuelOut` means the recursion was still
running when the fuel ran out, so a result computed under no amount of fuel
witnesses nontermination of the source loop on that response sequence. -/
inductive TxReqResult where
  | got (attempt : Nat) : TxReqResult
  | returnedNone : TxReqResult
  | fuelOut : TxReqResult
deriving DecidableEq, Repr

/-- `WhaleTransactionCollector._make_request`, fuelled (see `TxReqResult`):
returns the result, the attempts made, and the backoff sleeps taken. -/
def txRequestLoop (responses : Nat → HttpOutcome) :
    Nat → Nat → TxReqResult × Nat × List Nat
  | _, 0 => (.fuelOut, 0, [])
  | attempt, fuel + 1 =>
    match responses attempt with
    | .ok => (.got attempt, 1, [])
    | .failed => (.returnedNone, 1, [])
    | .rateLimited =>
      let (res, n, s) := txRequestLoop responses (attempt + 1) fuel
      (res, n + 1, 60 :: s)

/-! ## Constructor signatures (`WhaleTransactionProducer.__init__`)

A minimal model of Python keyword-argument binding: a call raises
`TypeError` as soon as it passes a keyword that is not among the callee's
declared parameter names. -/

/-- The Python exceptions the startup sequence can surface. -/
inductive PyError where
  | typeError : PyError
  | connectError : PyError
  | valueError : PyError
deriving DecidableEq, Repr

/-- Bind a list of passed keyword-argument names against the callee's
declared parameter names. -/
def bindKwargs (params : List String) (kwargs : List String) : Except PyError Unit :=
  if kwargs.all (fun k => params.contains k) then .ok () else .error .typeError

/-- `WhaleTransactionCollector.__init__(self)` declares no parameters beyond
`self` (`transaction_collector.py`, line 19). -/
def whaleCollectorParams : List String := []

/-- `WhaleTransactionProducer.__init__` passes the keyword argument
`api_key` when constructing its collector (`kafka_producers.py`, line 96). -/
def whaleProducerCollectorKwargs : List String := ["api_key"]

/-- `WhaleTransactionProducer.__init__(threshold_btc=100)`: first
`super().__init__('whale_transactions')` connects to the bus (raising when
the bounded retries are exhausted), then the collector is constructed. -/
def mkWhaleTransactionProducer (busOk : Bool) : Except PyError Unit :=
  if busOk then bindKwargs whaleCollectorParams whaleProducerCollectorKwargs
  else .error .connectError

/-- `BitcoinPriceProducer.__init__` / `CryptoNewsProducer.__init__`: connect
to the bus, then construct a CryptoCompare collector, which raises
`ValueError` when no API key is configured. -/
def mkCryptoCompareProducer (busOk : Bool) (haveApiKey : Bool) : Except PyError Unit :=
  if busOk then (if haveApiKey then .ok () else .error .valueError)
  else .error .connectError

/-- `kafka_producers.main()`: constructs the three producers in order; the
first constructor that raises aborts the startup sequence. -/
def producersStartup (busOk : Bool) (haveApiKey : Bool) : Except PyError Unit := do
  mkCryptoCompareProducer busOk haveApiKey
  mkWhaleTransactionProducer busOk
  mkCryptoCompareProducer busOk haveApiKey

/-! ## Relational store writers (`BitcoinDataProcessor.store_*_in_postgres`)

Each writer runs its statements in one transaction and commits at the end;
its `except` branch records one error and rolls the transaction back.  The
`failAt` argument injects the environment failure: `failAt = some k` means
the `k`-th database operation of the call raises (`k = batch length` being
the final `commit`), `failAt = none` (or an index past the commit) means the
call succeeds. -/

/-- Whether an injected failure index fires during a call that performs
`n` statements plus a commit. -/
def failsDuring (failAt : Option Nat) (n : Nat) : Bool :=
  match failAt with
  | some k => k ≤ n
  | none => false

/-- The upsert of `store_price_in_postgres`:
`INSERT INTO bitcoin_prices ... ON CONFLICT (timestamp) DO UPDATE SET
price = EXCLUDED.price, market_cap = EXCLUDED.market_cap,
volume = EXCLUDED.volume` — the key and the `date` column are not in the
`SET` list, so a conflicting row keeps both. -/
def upsertPrice (table : List PriceRec) (p : PriceRec) : List PriceRec :=
  if table.any (fun r => r.timestamp = p.timestamp) then
    table.map (fun r =>
      if r.timestamp = p.timestamp then
        { r with price := p.price, market_cap := p.market_cap, volume := p.volume }
      else r)
  else table ++ [p]

/-- `BitcoinDataProcessor.store_price_in_postgres(prices)`. -/
def store_price_in_postgres (failAt : Option Nat) (table : List PriceRec)
    (stats : ProcessingStats) (batch : List PriceRec) :
    List PriceRec × ProcessingStats :=
  if batch.isEmpty then (table, stats)
  else if failsDuring failAt batch.length then (table, stats.record_error)
  else (batch.foldl upsertPrice table, stats.update_price batch.length)

/-- The insert of `store_transaction_in_postgres`:
`INSERT INTO whale_transactions ... ON CONFLICT (tx_hash) DO NOTHING`. -/
def insertTx (table : List TxRec) (t : TxRec) : List TxRec :=
  if table.any (fun r => r.tx_hash = t.tx_hash) then table else table ++ [t]

/-- `BitcoinDataProcessor.store_transaction_in_postgres(transactions)`. -/
def store_transaction_in_postgres (failAt : Option Nat) (table : List TxRec)
    (stats : ProcessingStats) (batch : List TxRec) :
    List TxRec × ProcessingStats :=
  if batch.isEmpty then (table, stats)
  else if failsDuring failAt batch.length then (table, stats.record_error)
  else (batch.foldl insertTx table, stats.update_transaction batch.length)

/-! ## News writer and embedding indexer -/

/-- A row of `crypto_news`: the generated `SERIAL` id plus the inserted
article fields. -/
structure NewsRow where
  id : Nat
  art : NewsRec
deriving DecidableEq, Repr

/-- A row of the Milvus `news_embeddings` collection as built by
`generate_and_store_embeddings`: the relational id tag, the text pair the
vector encodes (see the header on the encoder), and the copied metadata
columns. -/
structure MilvusRow where
  news_id : Nat
  embedding_of : JVal × JVal
  title : JVal
  content : JVal
  source : JVal
  published_date : String
  link : JVal
deriving DecidableEq, Repr

/-- The Milvus record built for one newly inserted news row. -/
def toMilvusRow (r : NewsRow) : MilvusRow :=
  { news_id := r.id,
    embedding_of := (r.art.title, r.art.summary),
    title := r.art.title,
    content := r.art.summary,
    source := r.art.source,
    published_date := match r.art.published_date with
      | some d => isoformat d
      | none => "",
    link := r.art.link }

/-- `BitcoinDataProcessor.generate_and_store_embeddings(news_items)`: one
`collection.insert` call for the whole batch; on any exception the handler
records one error and nothing is inserted (`embedFail` injects that
failure). -/
def generate_and_store_embeddings (embedFail : Bool) (milvus : List MilvusRow)
    (stats : ProcessingStats) (items : List NewsRow) :
    List MilvusRow × ProcessingStats :=
  if embedFail then (milvus, stats.record_error)
  else (milvus ++ items.map toMilvusRow, stats.update_embeddings items.length)

/-- One `cursor.execute` of the `store_news_in_postgres` loop:
`INSERT INTO crypto_news ... ON CONFLICT (link) DO NOTHING RETURNING id`
followed by `fetchone()`.  On a link conflict nothing is inserted and
`fetchone()` yields no row, so no id is collected; the `SERIAL` sequence
advances for every attempted row.  The state is (table, next sequence
value, collected `news_with_ids`). -/
def newsInsertStep (st : List NewsRow × Nat × List NewsRow) (a : NewsRec) :
    List NewsRow × Nat × List NewsRow :=
  if st.1.any (fun r => r.art.link = a.link) then (st.1, st.2.1 + 1, st.2.2)
  else (st.1 ++ [⟨st.2.1, a⟩], st.2.1 + 1, st.2.2 ++ [⟨st.2.1, a⟩])

/-- The consumer-side state the news path touches: the `crypto_news` table
with its id sequence, the Milvus collection, and the shared counters. -/
structure NewsState where
  table : List NewsRow
  nextId : Nat
  milvus : List MilvusRow
  stats : ProcessingStats
deriving DecidableEq, Repr

/-- `BitcoinDataProcessor.store_news_in_postgres(news_items)`: insert each
article (ignoring link conflicts), commit, count the batch, and hand exactly
the rows that returned an id to `generate_and_store_embeddings`. -/
def store_news_in_postgres (failAt : Option Nat) (embedFail : Bool)
    (st : NewsState) (batch : List NewsRec) : NewsState :=
  if batch.isEmpty then st
  else if failsDuring failAt batch.length then
    { st with stats := st.stats.record_error }
  else
    let res := batch.foldl newsInsertStep (st.table, st.nextId, [])
    let stats1 := st.stats.update_news batch.length
    if res.2.2.isEmpty then
      { table := res.1, nextId := res.2.1, milvus := st.milvus, stats := stats1 }
    else
      { table := res.1, nextId := res.2.1,
        milvus := (generate_and_store_embeddings embedFail st.milvus stats1 res.2.2).1,
        stats := (generate_and_store_embeddings embedFail st.milvus stats1 res.2.2).2 }

/-! ## The one-shot backfill pass (`process_historical_data`) -/

/-- The relations the `CREATE_TABLES` DDL of `setup_postgres.py` creates in
the relational store.  `news_embeddings` is not among them: that name exists
only as a Milvus collection (`create_news_collection`). -/
def createTablesRelations : List String :=
  ["bitcoin_prices", "whale_transactions", "crypto_news"]

/-- The relations referenced by the backfill `SELECT` of
`process_historical_data`. -/
def backfillQueryRelations : List String := ["crypto_news", "news_embeddings"]

/-- Run the backfill query — `SELECT ... FROM crypto_news cn WHERE NOT
EXISTS (SELECT 1 FROM news_embeddings ne WHERE ne.news_id = cn.id)` —
against a store whose schema is `schema`.  Referencing a relation the
schema does not contain raises `UndefinedTable` (`none`); otherwise the
query returns the news rows whose id is absent from the `news_id` column of
the relational `news_embeddings` table.  (The `ORDER BY published_date
DESC` only permutes the result and no stated property observes the order,
so it is not modelled.) -/
def runBackfillQuery (schema : List String) (newsTable : List NewsRow)
    (pgEmbeddedIds : List Nat) : Option (List NewsRow) :=
  if backfillQueryRelations.all (fun t => schema.contains t) then
    some (newsTable.filter (fun r => ¬ pgEmbeddedIds.contains r.id))
  else none

/-- Split a list into consecutive chunks of at most `n + 1` elements
(`news_items[i:i+batch_size]` for `i in range(0, len, batch_size)`). -/
def chunksOf (n : Nat) : List α → List (List α)
  | [] => []
  | x :: xs => (x :: xs.take n) :: chunksOf n (xs.drop n)
termination_by l => l.length
decreasing_by simp [List.length_drop]; omega

/-- `BitcoinDataProcessor.process_historical_data()`: query the store for
news rows without an embedding and feed them to
`generate_and_store_embeddings` in batches of `batch_size = 50`; any
exception (including one raised by the query itself) records one error. -/
def process_historical_data (schema : List String) (pgEmbeddedIds : List Nat)
    (embedFail : Bool) (st : NewsState) : NewsState :=
  match runBackfillQuery schema st.table pgEmbeddedIds with
  | none => { st with stats := st.stats.record_error }
  | some items =>
    if items.isEmpty then st
    else
      (chunksOf 49 items).foldl (fun s batch =>
        let (m, st') := generate_and_store_embeddings embedFail s.milvus s.stats batch
        { s with milvus := m, stats := st' }) st

/-! ## General lemmas -/

/-- Consuming a stream with a parser of the shared `try/except` shape yields
the successfully parsed records in order and bumps `errors` once per failing
message, touching no other counter. -/
theorem consumeAll_wrap {R : Type} (core : Payload → Option R)
    (stats : ProcessingStats) (msgs : List Payload) :
    consumeAll (tryExceptParse core) stats msgs
      = (msgs.filterMap core,
         { stats with errors := stats.errors + msgs.countP (fun m => (core m).isNone) }) := by
  induction msgs generalizing stats with
  | nil => simp [consumeAll]
  | cons m rest ih =>
    cases hc : core m with
    | some r =>
      simp [consumeAll, tryExceptParse, hc, ih, List.countP_cons]
    | none =>
      have step : consumeAll (tryExceptParse core) stats (m :: rest)
          = consumeAll (tryExceptParse core) stats.record_error rest := by
        simp [consumeAll, tryExceptParse, hc]
      rw [step, ih]
      simp [ProcessingStats.record_error, List.countP_cons, hc,
        ProcessingStats.mk.injEq]
      omega

/-! ## Claim C7 -/

/-- C7: for every message whose payload cannot be deserialized or violates
the entity schema — i.e. whose parser core yields no record — the parser
yields no record and the errors counter is incremented once; consumption of
a topic is a single pass over its messages, so a malformed message is
consumed exactly once (never retried) and all records of the remaining
messages are still produced, in order.  Stated for both the
whale-transaction and the news deserializers. -/
theorem c7_malformed_payloads_skipped_counted :
    (∀ (stats : ProcessingStats) (msgs : List Payload),
        consumeAll parse_whale_transaction stats msgs
          = (msgs.filterMap parse_whale_core,
             { stats with errors :=
                 stats.errors + msgs.countP (fun m => (parse_whale_core m).isNone) }))
    ∧ ∀ (stats : ProcessingStats) (msgs : List Payload),
        consumeAll parse_news_data stats msgs
          = (msgs.filterMap parse_news_core,
             { stats with errors :=
                 stats.errors + msgs.countP (fun m => (parse_news_core m).isNone) }) :=
  ⟨fun stats msgs => consumeAll_wrap parse_whale_core stats msgs,
   fun stats msgs => consumeAll_wrap parse_news_core stats msgs⟩

/-! ## Claim C5 -/

/-- C5: every price message built by `BitcoinPriceProducer.fetch_and_send_price`
carries `market_cap = None` and `volume = None`, so the consumer's price
parser raises (`float(None)`), yields no record and increments the errors
counter — no live tick from that producer is ever parsed; the same payload
with those two keys omitted parses successfully with `0.0` substituted for
the absent fields. -/
theorem c5_producer_null_fields_never_parse :
    (∀ (now price : Int) (stats : ProcessingStats),
        parse_price_data stats (.obj (priceProducerMessage now price))
          = (none, { stats with errors := stats.errors + 1 }))
    ∧ ∀ (s : String) (t price : Int) (stats : ProcessingStats),
        fromIsoformat s = some t →
        parse_price_data stats (.obj [("timestamp", .jstr s), ("price", .jnum price)])
          = (some { timestamp := t, price := price, market_cap := 0, volume := 0,
                    date := dateOf t }, stats) := by
  constructor
  · intro now price stats
    have hcore : parse_price_core (.obj (priceProducerMessage now price)) = none := by
      unfold parse_price_core priceProducerMessage
      cases h : fromIsoformat (isoformat now) <;>
        simp [jfind, jget, pyFloat, h]
    simp [parse_price_data, tryExceptParse, hcore, ProcessingStats.record_error]
  · intro s t price stats h
    have hcore : parse_price_core (.obj [("timestamp", .jstr s), ("price", .jnum price)])
        = some { timestamp := t, price := price, market_cap := 0, volume := 0,
                 date := dateOf t } := by
      unfold parse_price_core
      simp [jfind, jget, pyFloat, h]
    simp [parse_price_data, tryExceptParse, hcore]

/-- C5 witness: a concrete live tick (timestamp second 0, price 42000) fails
to parse with one error counted, and the two-key variant parses. -/
theorem c5_producer_null_fields_never_parse_witness :
    parse_price_data ProcessingStats.init
        (.obj [("timestamp", .jstr "ISO:0"), ("price", .jnum 42000)])
      = (some { timestamp := 0, price := 42000, market_cap := 0, volume := 0,
                date := 0 }, ProcessingStats.init) :=
  c5_producer_null_fields_never_parse.2 "ISO:0" 0 42000 ProcessingStats.init (by decide)

/-! ## Claim C10 -/

/-- C10: once the bus connection of `WhaleTransactionProducer.__init__`
succeeds, constructing the collector raises `TypeError`
(`WhaleTransactionCollector.__init__` accepts no `api_key` keyword), so the
producers' startup sequence can never reach a running state. -/
theorem c10_whale_producer_raises_type_error :
    (∀ busOk : Bool, busOk = true →
        mkWhaleTransactionProducer busOk = .error .typeError)
    ∧ ∀ busOk haveApiKey : Bool, producersStartup busOk haveApiKey ≠ .ok () := by
  constructor
  · intro b hb
    subst hb
    rfl
  · intro b k
    cases b <;> cases k <;> exact fun h => nomatch h

/-- C10 witness: with the bus reachable the whale producer's constructor
raises `TypeError`, and a fully configured startup still cannot complete. -/
theorem c10_whale_producer_raises_type_error_witness :
    mkWhaleTransactionProducer true = .error .typeError :=
  c10_whale_producer_raises_type_error.1 true rfl

/-! ## Claim C3 -/

/-- C3 (code bug): against the schema that `CREATE_TABLES` actually creates
— which contains no `news_embeddings` relation; that name exists only as a
Milvus collection — every run of `process_historical_data` has its backfill
query raise `UndefinedTable`, so the pass records one error, indexes no
rows, and never scans anything, whatever the database contents. -/
theorem c3_backfill_query_always_fails :
    ∀ (pgEmbeddedIds : List Nat) (embedFail : Bool) (st : NewsState),
      process_historical_data createTablesRelations pgEmbeddedIds embedFail st
        = { st with stats := st.stats.record_error } :=
  fun _ _ _ => rfl

/-! ## Claim C6 -/

/-- C6: a batch write is all-or-nothing per call: when any database
operation of the call raises (`failsDuring`), the whole batch is rolled
back — the table (and, for news, the Milvus collection and the id sequence)
is exactly what it was before the call — the errors counter increments
exactly once and no processed counter moves; the batch is dropped, not
retried.  Stated for all three store methods. -/
theorem c6_batch_writes_all_or_nothing :
    ∀ (k : Nat) (stats : ProcessingStats),
      (∀ (tbl : List PriceRec) (batch : List PriceRec),
          batch ≠ [] → k ≤ batch.length →
          store_price_in_postgres (some k) tbl stats batch
            = (tbl, { stats with errors := stats.errors + 1 }))
      ∧ (∀ (tbl : List TxRec) (batch : List TxRec),
          batch ≠ [] → k ≤ batch.length →
          store_transaction_in_postgres (some k) tbl stats batch
            = (tbl, { stats with errors := stats.errors + 1 }))
      ∧ ∀ (st : NewsState) (embedFail : Bool) (batch : List NewsRec),
          batch ≠ [] → k ≤ batch.length →
          store_news_in_postgres (some k) embedFail st batch
            = { st with stats := { st.stats with errors := st.stats.errors + 1 } } := by
  intro k stats
  refine ⟨fun tbl batch hne hk => ?_, fun tbl batch hne hk => ?_,
    fun st embedFail batch hne hk => ?_⟩
  · cases batch with
    | nil => exact absurd rfl hne
    | cons b bs =>
      have hf : failsDuring (some k) (bs.length + 1) = true := by
        simpa [failsDuring] using hk
      simp [store_price_in_postgres, hf, ProcessingStats.record_error]
  · cases batch with
    | nil => exact absurd rfl hne
    | cons b bs =>
      have hf : failsDuring (some k) (bs.length + 1) = true := by
        simpa [failsDuring] using hk
      simp [store_transaction_in_postgres, hf, ProcessingStats.record_error]
  · cases batch with
    | nil => exact absurd rfl hne
    | cons b bs =>
      have hf : failsDuring (some k) (bs.length + 1) = true := by
        simpa [failsDuring] using hk
      simp [store_news_in_postgres, hf, ProcessingStats.record_error]

/-- C6 witness: a single-element price batch whose insert raises leaves the
table untouched and counts one error. -/
theorem c6_batch_writes_all_or_nothing_witness :
    store_price_in_postgres (some 0) [] ProcessingStats.init
        [{ timestamp := 0, price := 1, market_cap := 2, volume := 3, date := 0 }]
      = ([], { ProcessingStats.init with errors := 1 }) := by
  have h := (c6_batch_writes_all_or_nothing 0 ProcessingStats.init).1 []
    [{ timestamp := 0, price := 1, market_cap := 2, volume := 3, date := 0 }]
    (by decide) (by decide)
  exact h

/-! ## Retry-loop lemmas (towards claim C8) -/

/-- The connection loop makes at most as many attempts as remain. -/
theorem connectLoop_attempts_le (f : Nat → Bool) (d : Nat) :
    ∀ (r a : Nat), (connectLoop f d a r).attempts ≤ r := by
  intro r
  induction r with
  | zero => intro a; simp [connectLoop]
  | succ r ih =>
    intro a
    by_cases h : f a = true <;> simp [connectLoop, h]
    exact ih (a + 1)

/-- Every sleep of the connection loop is exactly the configured delay. -/
theorem connectLoop_sleeps_eq (f : Nat → Bool) (d : Nat) :
    ∀ (r a : Nat), ∀ x ∈ (connectLoop f d a r).sleeps, x = d := by
  intro r
  induction r with
  | zero => intro a x hx; simp [connectLoop] at hx
  | succ r ih =>
    intro a x hx
    by_cases h : f a = true
    · simp [connectLoop, h] at hx
    · simp [connectLoop, h] at hx
      rcases hx with hx | hx
      · exact hx.2
      · exact ih (a + 1) x hx

/-- When every attempt fails, the connection loop ends unconnected — the
Python loop falls through and raises. -/
theorem connectLoop_allfail (f : Nat → Bool) (d : Nat) (hf : ∀ k, f k = false) :
    ∀ (r a : Nat), (connectLoop f d a r).connected = false := by
  intro r
  induction r with
  | zero => intro a; simp [connectLoop]
  | succ r ih => intro a; simp [connectLoop, hf a, ih (a + 1)]

/-- The price-collector request loop makes at most as many attempts as
remain. -/
theorem priceRequestLoop_attempts_le (f : Nat → HttpOutcome) :
    ∀ (r a : Nat), (priceRequestLoop f a r).attempts ≤ r := by
  intro r
  induction r with
  | zero => intro a; simp [priceRequestLoop]
  | succ r ih =>
    intro a
    cases h : f a <;> simp [priceRequestLoop, h]
    · exact ih (a + 1)
    · exact ih (a + 1)

/-- Every backoff sleep of the price-collector request loop is at most 300
seconds, provided the non-429 backoff `2 * (attempt + 1)` stays under the
cap for the attempts that remain (it does for the loop's actual `retries=3`
window). -/
theorem priceRequestLoop_sleeps_le (f : Nat → HttpOutcome) :
    ∀ (r a : Nat), 2 * (a + r) ≤ 300 →
      ∀ x ∈ (priceRequestLoop f a r).sleeps, x ≤ 300 := by
  intro r
  induction r with
  | zero => intro a _ x hx; simp [priceRequestLoop] at hx
  | succ r ih =>
    intro a hb x hx
    cases h : f a with
    | ok => simp [priceRequestLoop, h] at hx
    | rateLimited =>
      simp [priceRequestLoop, h] at hx
      rcases hx with hx | hx
      · subst hx; exact Nat.min_le_right _ _
      · exact ih (a + 1) (by omega) x hx
    | failed =>
      simp [priceRequestLoop, h] at hx
      rcases hx with ⟨_, hx⟩ | hx
      · subst hx; omega
      · exact ih (a + 1) (by omega) x hx

/-- On a response stream that answers 429 every time, the transaction
collector's request recursion consumes any amount of fuel without returning:
after `fuel` attempts (each preceded by a 60-second sleep) it is still
retrying. -/
theorem txRequestLoop_rateLimited :
    ∀ (fuel a : Nat),
      txRequestLoop (fun _ => HttpOutcome.rateLimited) a fuel
        = (.fuelOut, fuel, List.replicate fuel 60) := by
  intro fuel
  induction fuel with
  | zero => intro a; rfl
  | succ fuel ih => intro a; simp [txRequestLoop, ih (a + 1), List.replicate]

/-! ## Claim C8 -/

/-- C8 counterexample: the claim says every rate-limit retry uses a bounded
number of attempts, but `WhaleTransactionCollector._make_request`, fed 100
consecutive HTTP 429 responses, has made 100 attempts (far beyond every
bound the policy names), slept 60 seconds before each retry, and is still
retrying. -/
theorem c8_tx_collector_429_unbounded_counterexample :
    (txRequestLoop (fun _ => HttpOutcome.rateLimited) 0 100).2.1 = 100
    ∧ (txRequestLoop (fun _ => HttpOutcome.rateLimited) 0 100).1 = .fuelOut
    ∧ ¬ (txRequestLoop (fun _ => HttpOutcome.rateLimited) 0 100).2.1 ≤ 5 := by
  decide

/-- C8 (amended): initial connections attempt at most 5 times with
10-second delays and end in a raise when exhausted; the price collector
caps its 429 backoff at 300 seconds with at most 3 attempts; the
transaction collector, however, retries 429 responses with a fixed
60-second backoff an unbounded number of times — no amount of fuel lets
the recursion return while 429s persist. -/
theorem c8_retry_policies :
    (∀ succeeds : Nat → Bool,
        (connect_with_retries succeeds).attempts ≤ 5
        ∧ (∀ x ∈ (connect_with_retries succeeds).sleeps, x = 10)
        ∧ ((∀ k, succeeds k = false) → (connect_with_retries succeeds).connected = false))
    ∧ (∀ responses : Nat → HttpOutcome,
        (priceMakeRequest responses).attempts ≤ 3
        ∧ ∀ x ∈ (priceMakeRequest responses).sleeps, x ≤ 300)
    ∧ ∀ fuel : Nat,
        txRequestLoop (fun _ => HttpOutcome.rateLimited) 0 fuel
          = (.fuelOut, fuel, List.replicate fuel 60) := by
  refine ⟨fun succeeds => ⟨?_, ?_, fun hf => ?_⟩, fun responses => ⟨?_, ?_⟩, fun fuel => ?_⟩
  · exact connectLoop_attempts_le succeeds 10 5 0
  · exact connectLoop_sleeps_eq succeeds 10 5 0
  · exact connectLoop_allfail succeeds 10 hf 5 0
  · exact priceRequestLoop_attempts_le responses 3 0
  · exact priceRequestLoop_sleeps_le responses 3 0 (by omega)
  · exact txRequestLoop_rateLimited fuel 0

/-- C8 witness: a bus that never answers leaves the producer unconnected
after its 5 attempts, which is the fatal-raise path. -/
theorem c8_retry_policies_witness :
    (connect_with_retries (fun _ => false)).connected = false :=
  (c8_retry_policies.1 (fun _ => false)).2.2 (fun _ => rfl)

/-! ## Claim C4 -/

/-- C4 counterexample: the claim says the dedup window is replaced wholesale
with the full current-cycle key set on every poll.  Concretely: cycle 1
observes keys A and B, cycle 2 observes only B — no new key, so the early
return skips the replacement and the window stays {A, B} instead of
becoming {B}; consequently A observed again in cycle 3 is (contrary to the
claim's replacement semantics) not emitted. -/
theorem c4_window_not_replaced_counterexample :
    (fetch_and_send_transactions
        (fetch_and_send_transactions (∅ : Finset String) ["A", "B"]).2 ["B"]).2
      ≠ (["B"] : List String).toFinset
    ∧ (fetch_and_send_transactions
        (fetch_and_send_transactions
          (fetch_and_send_transactions (∅ : Finset String) ["A", "B"]).2 ["B"]).2
        ["A"]).1 = [] := by
  decide

/-- C4 (amended): on every poll cycle exactly the keys in the current fetch
minus the dedup window are published (nothing when that difference is
empty), and the window is replaced wholesale with the full current-cycle
key set only on cycles that observe at least one new key — on a cycle whose
fetch is empty or yields no new keys the window is left unchanged.  The
spec's scenario still holds: cycles observing {A,B}, then {B,C}, then {A}
emit {A,B}, then only C, then A again. -/
theorem c4_dedup_window_cycle :
    (∀ (window : Finset String) (observed : List String),
        (dedupCycle window observed).1.toFinset = observed.toFinset \ window
        ∧ (observed.toFinset \ window ≠ ∅ → (dedupCycle window observed).2 = observed.toFinset)
        ∧ (observed.toFinset \ window = ∅ → (dedupCycle window observed).2 = window))
    ∧ ((fetch_and_send_news (∅ : Finset String) ["A", "B"]).1 = ["A", "B"]
        ∧ (fetch_and_send_news
            (fetch_and_send_news (∅ : Finset String) ["A", "B"]).2 ["B", "C"]).1 = ["C"]
        ∧ (fetch_and_send_news
            (fetch_and_send_news
              (fetch_and_send_news (∅ : Finset String) ["A", "B"]).2 ["B", "C"]).2
            ["A"]).1 = ["A"]) := by
  constructor
  · intro window observed
    cases observed with
    | nil =>
      refine ⟨by simp [dedupCycle], fun h => absurd ?_ h, fun _ => by simp [dedupCycle]⟩
      simp
    | cons o os =>
      by_cases hs : insert o os.toFinset ⊆ window
      · have hd : (o :: os).toFinset \ window = ∅ := by
          rw [List.toFinset_cons]
          exact Finset.sdiff_eq_empty_iff_subset.mpr hs
        refine ⟨?_, fun h => absurd hd h, fun _ => ?_⟩
        · simp only [dedupCycle, List.isEmpty_cons, ite_false]
          rw [hd]
          simp [hd.symm]
        · simp only [dedupCycle, List.isEmpty_cons, ite_false]
          rw [hd]
          rfl
      · have hd : (o :: os).toFinset \ window ≠ ∅ := by
          simp only [List.toFinset_cons, Ne, Finset.sdiff_eq_empty_iff_subset]
          exact hs
        refine ⟨?_, fun _ => ?_, fun h => absurd h hd⟩
        · simp only [dedupCycle, List.isEmpty_cons, ite_false, if_neg hd]
          ext x
          simp [List.mem_filter]
        · simp only [dedupCycle, List.isEmpty_cons, ite_false, if_neg hd]
          rfl
  · exact ⟨by decide, by decide, by decide⟩

/-- C4 witness: a fresh adapter observing one key publishes it and retains
it as the new window. -/
theorem c4_dedup_window_cycle_witness :
    (dedupCycle (∅ : Finset String) ["A"]).2 = (["A"] : List String).toFinset :=
  (c4_dedup_window_cycle.1 ∅ ["A"]).2.1 (by decide)

/-! ## Keyed-table lemmas (towards claims C2, C9, C1)

A `UNIQUE` column makes the key column of a stored table duplicate-free;
the lemmas below count and locate rows by key. -/

/-- A table none of whose rows carries key `T` has no row with key `T`. -/
theorem countP_key_eq_zero {A K : Type} [DecidableEq K] (key : A → K) (T : K)
    (l : List A) (h : l.any (fun r => key r = T) = false) :
    l.countP (fun r => key r = T) = 0 := by
  rw [List.countP_eq_zero]
  intro a ha
  rw [List.any_eq_false] at h
  exact h a ha

/-- A duplicate-free-keyed table containing some row with key `T` contains
exactly one. -/
theorem countP_key_eq_one {A K : Type} [DecidableEq K] (key : A → K) (T : K) :
    ∀ l : List A, (l.map key).Nodup → l.any (fun r => key r = T) = true →
      l.countP (fun r => key r = T) = 1 := by
  intro l
  induction l with
  | nil => intro _ h; simp at h
  | cons r rest ih =>
    intro hnd hany
    rw [List.map_cons, List.nodup_cons] at hnd
    by_cases hr : key r = T
    · have hz : rest.countP (fun x => key x = T) = 0 := by
        rw [List.countP_eq_zero]
        intro a ha hk
        rw [decide_eq_true_eq] at hk
        exact hnd.1 (hr ▸ hk ▸ List.mem_map_of_mem key ha)
      simp [List.countP_cons, hr, hz]
    · have hrest : rest.any (fun x => key x = T) = true := by
        rcases List.any_eq_true.mp hany with ⟨x, hx, hk⟩
        rw [decide_eq_true_eq] at hk
        rcases List.mem_cons.mp hx with rfl | hx
        · exact absurd hk hr
        · exact List.any_eq_true.mpr ⟨x, hx, by simp [hk]⟩
      simp [List.countP_cons, hr, ih hnd.2 hrest]

/-! ## Price-upsert lemmas (towards claim C2) -/

/-- The upsert leaves the key column unchanged on conflict and appends the
new key otherwise. -/
theorem upsertPrice_map_timestamp (tbl : List PriceRec) (p : PriceRec) :
    (upsertPrice tbl p).map (fun r => r.timestamp)
      = if tbl.any (fun r => r.timestamp = p.timestamp) = true
        then tbl.map (fun r => r.timestamp)
        else tbl.map (fun r => r.timestamp) ++ [p.timestamp] := by
  unfold upsertPrice
  by_cases h : tbl.any (fun r => r.timestamp = p.timestamp) = true
  · rw [if_pos h, if_pos h, List.map_map]
    refine List.map_congr_left fun r _ => ?_
    by_cases hr : r.timestamp = p.timestamp <;> simp [hr]
  · rw [if_neg h, if_neg h, List.map_append]
    rfl

/-- After an upsert the upserted key is present. -/
theorem upsertPrice_any_self (tbl : List PriceRec) (p : PriceRec) :
    (upsertPrice tbl p).any (fun r => r.timestamp = p.timestamp) = true := by
  unfold upsertPrice
  by_cases h : tbl.any (fun r => r.timestamp = p.timestamp) = true
  · rw [if_pos h, List.any_map]
    rcases List.any_eq_true.mp h with ⟨x, hx, hk⟩
    rw [decide_eq_true_eq] at hk
    refine List.any_eq_true.mpr ⟨x, hx, ?_⟩
    simp [Function.comp, hk]
  · rw [if_neg h, List.any_append]
    simp

/-- Every row of an upsert result that carries the upserted key carries the
upserted numeric fields (the last write). -/
theorem upsertPrice_mem_fields (tbl : List PriceRec) (p : PriceRec) :
    ∀ r ∈ upsertPrice tbl p, r.timestamp = p.timestamp →
      r.price = p.price ∧ r.market_cap = p.market_cap ∧ r.volume = p.volume := by
  unfold upsertPrice
  by_cases h : tbl.any (fun r => r.timestamp = p.timestamp) = true
  · rw [if_pos h]
    intro r hr hts
    rcases List.mem_map.mp hr with ⟨x, hx, rfl⟩
    by_cases hxt : x.timestamp = p.timestamp
    · simp [hxt]
    · rw [if_neg hxt] at hts ⊢
      exact absurd hts hxt
  · rw [if_neg h]
    intro r hr hts
    rcases List.mem_append.mp hr with hr | hr
    · rw [Bool.not_eq_true, List.any_eq_false] at h
      exact absurd (by simpa using hts) (h r hr)
    · rcases List.mem_singleton.mp hr with rfl
      exact ⟨rfl, rfl, rfl⟩

/-- The upsert preserves duplicate-freedom of the key column (the `UNIQUE
(timestamp)` invariant). -/
theorem upsertPrice_nodup (tbl : List PriceRec) (p : PriceRec)
    (hnd : (tbl.map (fun r => r.timestamp)).Nodup) :
    ((upsertPrice tbl p).map (fun r => r.timestamp)).Nodup := by
  rw [upsertPrice_map_timestamp]
  by_cases h : tbl.any (fun r => r.timestamp = p.timestamp) = true
  · rwa [if_pos h]
  · rw [if_neg h]
    have hni : p.timestamp ∉ tbl.map (fun r => r.timestamp) := by
      rw [Bool.not_eq_true, List.any_eq_false] at h
      intro hmem
      rcases List.mem_map.mp hmem with ⟨x, hx, hk⟩
      exact h x hx (by simp [hk])
    simp [List.nodup_append, hnd, hni]

/-- Upserting a tick whose fields the table already carries at its key is
the identity: the source of idempotence. -/
theorem upsertPrice_idem (tbl : List PriceRec) (p : PriceRec) :
    upsertPrice (upsertPrice tbl p) p = upsertPrice tbl p := by
  have hany := upsertPrice_any_self tbl p
  conv_lhs => rw [upsertPrice]
  rw [if_pos hany]
  have : ∀ r ∈ upsertPrice tbl p,
      (if r.timestamp = p.timestamp then
        { r with price := p.price, market_cap := p.market_cap, volume := p.volume }
      else r) = r := by
    intro r hr
    by_cases hts : r.timestamp = p.timestamp
    · rcases upsertPrice_mem_fields tbl p r hr hts with ⟨h1, h2, h3⟩
      rw [if_pos hts, ← h1, ← h2, ← h3]
    · rw [if_neg hts]
  calc (upsertPrice tbl p).map _ = (upsertPrice tbl p).map id :=
        List.map_congr_left fun r hr => this r hr
    _ = upsertPrice tbl p := List.map_id _

/-- One call of the price writer with a singleton batch and no failure. -/
theorem store_price_single (tbl : List PriceRec) (stats : ProcessingStats)
    (t : PriceRec) :
    store_price_in_postgres none tbl stats [t]
      = (upsertPrice tbl t, stats.update_price 1) := rfl

/-! ## Claim C2 -/

/-- C2: storing two price ticks with the same timestamp (one call each)
leaves exactly one row for that timestamp, whose `price`, `market_cap` and
`volume` equal the last write; the key column is never mutated (it is
unchanged when the key was present, extended by the new key otherwise); and
storing the same tick twice is idempotent — the second call leaves the
table exactly as the first left it. -/
theorem c2_price_upsert_last_write_wins :
    ∀ (tbl : List PriceRec) (stats1 stats2 : ProcessingStats) (t1 t2 : PriceRec),
      t1.timestamp = t2.timestamp →
      (tbl.map (fun r => r.timestamp)).Nodup →
      ((store_price_in_postgres none (store_price_in_postgres none tbl stats1 [t1]).1
          stats2 [t2]).1.countP (fun r => r.timestamp = t2.timestamp) = 1
       ∧ (∀ r : PriceRec,
            r ∈ (store_price_in_postgres none (store_price_in_postgres none tbl stats1 [t1]).1
              stats2 [t2]).1 → r.timestamp = t2.timestamp →
            r.price = t2.price ∧ r.market_cap = t2.market_cap ∧ r.volume = t2.volume)
       ∧ (store_price_in_postgres none (store_price_in_postgres none tbl stats1 [t1]).1
            stats2 [t2]).1.map (fun r => r.timestamp)
          = (if tbl.any (fun r => r.timestamp = t1.timestamp) = true
             then tbl.map (fun r => r.timestamp)
             else tbl.map (fun r => r.timestamp) ++ [t1.timestamp])
       ∧ (store_price_in_postgres none (store_price_in_postgres none tbl stats1 [t1]).1
            stats2 [t1]).1 = (store_price_in_postgres none tbl stats1 [t1]).1) := by
  intro tbl stats1 stats2 t1 t2 hts hnd
  simp only [store_price_single]
  have hnd1 : ((upsertPrice tbl t1).map (fun r => r.timestamp)).Nodup :=
    upsertPrice_nodup tbl t1 hnd
  have hany1 : (upsertPrice tbl t1).any (fun r => r.timestamp = t2.timestamp) = true := by
    rw [← hts]; exact upsertPrice_any_self tbl t1
  refine ⟨?_, ?_, ?_, ?_⟩
  · exact countP_key_eq_one (fun r : PriceRec => r.timestamp) t2.timestamp _
      (upsertPrice_nodup _ t2 hnd1) (upsertPrice_any_self _ t2)
  · exact upsertPrice_mem_fields _ t2
  · rw [upsertPrice_map_timestamp _ t2, if_pos hany1, upsertPrice_map_timestamp tbl t1]
  · exact upsertPrice_idem tbl t1

/-- C2 witness: two ticks at timestamp 7 — a fresh insert then a
conflicting overwrite — leave one row carrying the second tick's fields. -/
theorem c2_price_upsert_last_write_wins_witness :
    (store_price_in_postgres none
        (store_price_in_postgres none [] ProcessingStats.init
          [{ timestamp := 7, price := 1, market_cap := 2, volume := 3, date := 0 }]).1
        ProcessingStats.init
        [{ timestamp := 7, price := 10, market_cap := 20, volume := 30, date := 0 }]).1.countP
      (fun r => r.timestamp
        = ({ timestamp := 7, price := 10, market_cap := 20, volume := 30, date := 0 } : PriceRec).timestamp) = 1 :=
  (c2_price_upsert_last_write_wins [] ProcessingStats.init ProcessingStats.init
    { timestamp := 7, price := 1, market_cap := 2, volume := 3, date := 0 }
    { timestamp := 7, price := 10, market_cap := 20, volume := 30, date := 0 }
    (by decide) (by decide)).1

/-! ## Insert-or-ignore lemmas (towards claim C9) -/

/-- The transaction insert only ever appends: every already-stored row stays
at its position, unmodified. -/
theorem foldl_insertTx_extends :
    ∀ (batch : List TxRec) (tbl : List TxRec),
      ∃ ext, batch.foldl insertTx tbl = tbl ++ ext := by
  intro batch
  induction batch with
  | nil => exact fun tbl => ⟨[], by simp⟩
  | cons a rest ih =>
    intro tbl
    rw [List.foldl_cons]
    obtain ⟨ext, hext⟩ := ih (insertTx tbl a)
    by_cases h : tbl.any (fun r => r.tx_hash = a.tx_hash) = true
    · have e : insertTx tbl a = tbl := by unfold insertTx; rw [if_pos h]
      exact ⟨ext, by rw [hext, e]⟩
    · have e : insertTx tbl a = tbl ++ [a] := by unfold insertTx; rw [if_neg h]
      exact ⟨a :: ext, by rw [hext, e, List.append_assoc]; rfl⟩

/-- One call of the transaction writer, unfolded. -/
theorem store_transaction_unfold (tbl : List TxRec) (stats : ProcessingStats)
    (batch : List TxRec) :
    (store_transaction_in_postgres none tbl stats batch).1
      = batch.foldl insertTx tbl := by
  cases batch <;> rfl

/-! ## Claim C9 -/

/-- C9: storing two whale transactions with identical `tx_hash` (one call
each) leaves exactly one row carrying that hash, and that row's fields are
those of the first successful insert — the row already stored if the hash
was present, otherwise the first of the two transactions; and no batch ever
mutates a stored row: every store call only appends to the table. -/
theorem c9_tx_insert_or_ignore_first_wins :
    ∀ (tbl : List TxRec) (stats1 stats2 : ProcessingStats) (t1 t2 : TxRec),
      t1.tx_hash = t2.tx_hash →
      (tbl.map (fun r => r.tx_hash)).Nodup →
      ((store_transaction_in_postgres none
          (store_transaction_in_postgres none tbl stats1 [t1]).1 stats2 [t2]).1.countP
            (fun r => r.tx_hash = t1.tx_hash) = 1
       ∧ (store_transaction_in_postgres none
            (store_transaction_in_postgres none tbl stats1 [t1]).1 stats2 [t2]).1.filter
              (fun r => r.tx_hash = t1.tx_hash)
          = (if tbl.any (fun r => r.tx_hash = t1.tx_hash) = true
             then tbl.filter (fun r => r.tx_hash = t1.tx_hash)
             else [t1])
       ∧ ∀ (batch : List TxRec) (stats : ProcessingStats),
          ∃ ext, (store_transaction_in_postgres none tbl stats batch).1 = tbl ++ ext) := by
  intro tbl stats1 stats2 t1 t2 hh hnd
  have h1 : (store_transaction_in_postgres none tbl stats1 [t1]).1 = insertTx tbl t1 := by
    rw [store_transaction_unfold]; rfl
  have h2 : ∀ T : List TxRec, (store_transaction_in_postgres none T stats2 [t2]).1
      = insertTx T t2 := by
    intro T; rw [store_transaction_unfold]; rfl
  by_cases h : tbl.any (fun r => r.tx_hash = t1.tx_hash) = true
  · have e1 : insertTx tbl t1 = tbl := by unfold insertTx; rw [if_pos h]
    have e2 : insertTx tbl t2 = tbl := by
      unfold insertTx; rw [if_pos (hh ▸ h)]
    refine ⟨?_, ?_, fun batch stats => ?_⟩
    · rw [h2, h1, e1, e2]
      exact countP_key_eq_one (fun r : TxRec => r.tx_hash) t1.tx_hash tbl hnd h
    · rw [h2, h1, e1, e2, if_pos h]
    · rw [store_transaction_unfold]
      exact foldl_insertTx_extends batch tbl
  · have e1 : insertTx tbl t1 = tbl ++ [t1] := by unfold insertTx; rw [if_neg h]
    have e2 : insertTx (tbl ++ [t1]) t2 = tbl ++ [t1] := by
      unfold insertTx
      rw [if_pos]
      rw [List.any_append]
      simp [hh]
    have hz : tbl.countP (fun r => r.tx_hash = t1.tx_hash) = 0 :=
      countP_key_eq_zero (fun r : TxRec => r.tx_hash) t1.tx_hash tbl
        (Bool.not_eq_true _ ▸ h)
    have hfz : tbl.filter (fun r => r.tx_hash = t1.tx_hash) = [] :=
      List.length_eq_zero.mp (by rw [← List.countP_eq_length_filter, hz])
    refine ⟨?_, ?_, fun batch stats => ?_⟩
    · rw [h2, h1, e1, e2, List.countP_append, hz]
      simp
    · rw [h2, h1, e1, e2, List.filter_append, hfz, if_neg h]
      simp
    · rw [store_transaction_unfold]
      exact foldl_insertTx_extends batch tbl

/-- C9 witness: two transactions sharing hash "h" with different values —
stored one call each into an empty table — leave exactly the first one. -/
theorem c9_tx_insert_or_ignore_first_wins_witness :
    (store_transaction_in_postgres none
        (store_transaction_in_postgres none [] ProcessingStats.init
          [{ tx_hash := .jstr "h", block_hash := .jnull, timestamp := none, value_btc := 150,
             fee := 0, size := 0, input_count := 1, output_count := 1, is_coinbase := false }]).1
        ProcessingStats.init
        [{ tx_hash := .jstr "h", block_hash := .jnull, timestamp := none, value_btc := 999,
           fee := 0, size := 0, input_count := 2, output_count := 2, is_coinbase := false }]).1.countP
      (fun r => r.tx_hash
        = ({ tx_hash := .jstr "h", block_hash := .jnull, timestamp := none, value_btc := 150,
             fee := 0, size := 0, input_count := 1, output_count := 1,
             is_coinbase := false } : TxRec).tx_hash) = 1 :=
  (c9_tx_insert_or_ignore_first_wins [] ProcessingStats.init ProcessingStats.init
    { tx_hash := .jstr "h", block_hash := .jnull, timestamp := none, value_btc := 150,
      fee := 0, size := 0, input_count := 1, output_count := 1, is_coinbase := false }
    { tx_hash := .jstr "h", block_hash := .jnull, timestamp := none, value_btc := 999,
      fee := 0, size := 0, input_count := 2, output_count := 2, is_coinbase := false }
    rfl (by decide)).1

/-! ## News-insert lemmas (towards claim C1) -/

/-- Processing a batch never disturbs a link that is already stored: the
stored row for that link is untouched and no `news_with_ids` entry is
collected for it. -/
theorem newsFold_existing_link :
    ∀ (batch : List NewsRec) (tbl : List NewsRow) (nid : Nat) (acc : List NewsRow)
      (L : JVal), tbl.any (fun r => r.art.link = L) = true →
      ((batch.foldl newsInsertStep (tbl, nid, acc)).1.filter (fun r => r.art.link = L)
         = tbl.filter (fun r => r.art.link = L)
       ∧ (batch.foldl newsInsertStep (tbl, nid, acc)).2.2.filter (fun r => r.art.link = L)
         = acc.filter (fun r => r.art.link = L)) := by
  intro batch
  induction batch with
  | nil => intro tbl nid acc L _; exact ⟨rfl, rfl⟩
  | cons a rest ih =>
    intro tbl nid acc L h
    rw [List.foldl_cons]
    by_cases ha : tbl.any (fun r => r.art.link = a.link) = true
    · have e : newsInsertStep (tbl, nid, acc) a = (tbl, nid + 1, acc) := by
        unfold newsInsertStep; rw [if_pos ha]
      rw [e]
      exact ih tbl (nid + 1) acc L h
    · have e : newsInsertStep (tbl, nid, acc) a
          = (tbl ++ [⟨nid, a⟩], nid + 1, acc ++ [⟨nid, a⟩]) := by
        unfold newsInsertStep; rw [if_neg ha]
      have hal : ¬ a.link = L := fun hl => ha (hl ▸ h)
      rw [e]
      have h2 : (tbl ++ [⟨nid, a⟩] : List NewsRow).any (fun r => r.art.link = L) = true := by
        rw [List.any_append, h]; rfl
      obtain ⟨ht, hacc⟩ := ih (tbl ++ [⟨nid, a⟩]) (nid + 1) (acc ++ [⟨nid, a⟩]) L h2
      constructor
      · rw [ht, List.filter_append]
        simp [hal]
      · rw [hacc, List.filter_append]
        simp [hal]

/-- Processing a batch that contains a link no stored row carries inserts
exactly one row for that link and collects exactly one `news_with_ids`
entry, the two sharing one generated id. -/
theorem newsFold_fresh_link :
    ∀ (batch : List NewsRec) (tbl : List NewsRow) (nid : Nat) (acc : List NewsRow)
      (L : JVal), tbl.any (fun r => r.art.link = L) = false →
      acc.filter (fun r => r.art.link = L) = [] →
      L ∈ batch.map (fun a => a.link) →
      ∃ (i : Nat) (a0 : NewsRec), a0 ∈ batch ∧ a0.link = L
        ∧ (batch.foldl newsInsertStep (tbl, nid, acc)).1.filter (fun r => r.art.link = L)
            = [⟨i, a0⟩]
        ∧ (batch.foldl newsInsertStep (tbl, nid, acc)).2.2.filter (fun r => r.art.link = L)
            = [⟨i, a0⟩] := by
  intro batch
  induction batch with
  | nil => intro _ _ _ _ _ _ h; simp at h
  | cons a rest ih =>
    intro tbl nid acc L htbl hacc hmem
    rw [List.foldl_cons]
    by_cases hal : a.link = L
    · have ha : ¬ tbl.any (fun r => r.art.link = a.link) = true := by
        rw [hal, htbl]; exact Bool.false_ne_true
      have e : newsInsertStep (tbl, nid, acc) a
          = (tbl ++ [⟨nid, a⟩], nid + 1, acc ++ [⟨nid, a⟩]) := by
        unfold newsInsertStep; rw [if_neg ha]
      rw [e]
      have h2 : (tbl ++ [⟨nid, a⟩] : List NewsRow).any (fun r => r.art.link = L) = true := by
        rw [List.any_append]
        simp [hal]
      obtain ⟨ht, hc⟩ := newsFold_existing_link rest (tbl ++ [⟨nid, a⟩]) (nid + 1)
        (acc ++ [⟨nid, a⟩]) L h2
      have hft : tbl.filter (fun r => r.art.link = L) = [] := by
        rw [List.filter_eq_nil_iff]
        intro r hr
        rw [List.any_eq_false] at htbl
        exact htbl r hr
      refine ⟨nid, a, List.mem_cons_self a rest, hal, ?_, ?_⟩
      · rw [ht, List.filter_append, hft]
        simp [hal]
      · rw [hc, List.filter_append, hacc]
        simp [hal]
    · have hmem2 : L ∈ rest.map (fun a => a.link) := by
        rw [List.map_cons, List.mem_cons] at hmem
        rcases hmem with hmem | hmem
        · exact absurd hmem.symm hal
        · exact hmem
      by_cases ha : tbl.any (fun r => r.art.link = a.link) = true
      · have e : newsInsertStep (tbl, nid, acc) a = (tbl, nid + 1, acc) := by
          unfold newsInsertStep; rw [if_pos ha]
        rw [e]
        obtain ⟨i, a0, hm, hl, ht, hc⟩ := ih tbl (nid + 1) acc L htbl hacc hmem2
        exact ⟨i, a0, List.mem_cons_of_mem a hm, hl, ht, hc⟩
      · have e : newsInsertStep (tbl, nid, acc) a
            = (tbl ++ [⟨nid, a⟩], nid + 1, acc ++ [⟨nid, a⟩]) := by
          unfold newsInsertStep; rw [if_neg ha]
        rw [e]
        have htbl2 : (tbl ++ [⟨nid, a⟩] : List NewsRow).any (fun r => r.art.link = L) = false := by
          rw [List.any_append, htbl]
          simp [hal]
        have hacc2 : (acc ++ [⟨nid, a⟩] : List NewsRow).filter (fun r => r.art.link = L) = [] := by
          rw [List.filter_append, hacc]
          simp [hal]
        obtain ⟨i, a0, hm, hl, ht, hc⟩ := ih (tbl ++ [⟨nid, a⟩]) (nid + 1)
          (acc ++ [⟨nid, a⟩]) L htbl2 hacc2 hmem2
        exact ⟨i, a0, List.mem_cons_of_mem a hm, hl, ht, hc⟩

/-- Filtering the Milvus rows of a batch by link mirrors filtering the news
rows that produced them (`toMilvusRow` copies the link). -/
theorem filter_map_toMilvus (l : List NewsRow) (L : JVal) :
    (l.map toMilvusRow).filter (fun m => m.link = L)
      = (l.filter (fun r => r.art.link = L)).map toMilvusRow := by
  induction l with
  | nil => rfl
  | cons r rest ih =>
    by_cases h : r.art.link = L <;>
      simp [toMilvusRow, List.filter_cons, h, ih]

/-! ## Claim C1 -/

/-- C1: in one news batch write (no injected failures), a link that already
exists in the relational store is ignored — its stored row is unchanged and
no embedding insert carries that link (it yielded no id); a genuinely new
link present in the batch yields exactly one inserted row and exactly one
embedding insert, and the embedding's `news_id` tag is that row's generated
id. -/
theorem c1_id_gated_embedding :
    ∀ (tbl : List NewsRow) (nid : Nat) (milvus : List MilvusRow)
      (stats : ProcessingStats) (batch : List NewsRec) (L : JVal),
      (tbl.any (fun r => r.art.link = L) = true →
        ((store_news_in_postgres none false ⟨tbl, nid, milvus, stats⟩ batch).table.filter
            (fun r => r.art.link = L) = tbl.filter (fun r => r.art.link = L)
         ∧ (store_news_in_postgres none false ⟨tbl, nid, milvus, stats⟩ batch).milvus.filter
            (fun m => m.link = L) = milvus.filter (fun m => m.link = L)))
      ∧ (tbl.any (fun r => r.art.link = L) = false →
         L ∈ batch.map (fun a => a.link) →
         ∃ (i : Nat) (a0 : NewsRec), a0 ∈ batch ∧ a0.link = L
           ∧ (store_news_in_postgres none false ⟨tbl, nid, milvus, stats⟩ batch).table.filter
               (fun r => r.art.link = L) = [⟨i, a0⟩]
           ∧ (store_news_in_postgres none false ⟨tbl, nid, milvus, stats⟩ batch).milvus.filter
               (fun m => m.link = L)
             = milvus.filter (fun m => m.link = L) ++ [toMilvusRow ⟨i, a0⟩]) := by
  intro tbl nid milvus stats batch L
  cases batch with
  | nil =>
    exact ⟨fun _ => ⟨rfl, rfl⟩, fun _ hmem => absurd hmem (by simp)⟩
  | cons b bs =>
    have hstore : store_news_in_postgres none false ⟨tbl, nid, milvus, stats⟩ (b :: bs)
        = (if ((b :: bs).foldl newsInsertStep (tbl, nid, [])).2.2.isEmpty then
            { table := ((b :: bs).foldl newsInsertStep (tbl, nid, [])).1,
              nextId := ((b :: bs).foldl newsInsertStep (tbl, nid, [])).2.1,
              milvus := milvus,
              stats := stats.update_news (b :: bs).length }
          else
            { table := ((b :: bs).foldl newsInsertStep (tbl, nid, [])).1,
              nextId := ((b :: bs).foldl newsInsertStep (tbl, nid, [])).2.1,
              milvus := milvus
                ++ (((b :: bs).foldl newsInsertStep (tbl, nid, [])).2.2).map toMilvusRow,
              stats := (stats.update_news (b :: bs).length).update_embeddings
                (((b :: bs).foldl newsInsertStep (tbl, nid, [])).2.2).length }) := rfl
    constructor
    · intro h
      obtain ⟨ht, hc⟩ := newsFold_existing_link (b :: bs) tbl nid [] L h
      rw [hstore]
      by_cases he : ((b :: bs).foldl newsInsertStep (tbl, nid, [])).2.2.isEmpty = true
      · rw [if_pos he]
        exact ⟨ht, rfl⟩
      · rw [if_neg he]
        refine ⟨ht, ?_⟩
        simp only [List.filter_append, filter_map_toMilvus, hc]
        simp
    · intro h hmem
      obtain ⟨i, a0, hm, hl, ht, hc⟩ := newsFold_fresh_link (b :: bs) tbl nid [] L h rfl hmem
      have hne : ((b :: bs).foldl newsInsertStep (tbl, nid, [])).2.2.isEmpty = false := by
        rcases hx : ((b :: bs).foldl newsInsertStep (tbl, nid, [])).2.2 with _ | ⟨x, xs⟩
        · rw [hx] at hc
          exact absurd hc (by simp)
        · rfl
      refine ⟨i, a0, hm, hl, ?_, ?_⟩
      · rw [hstore, if_neg (by rw [hne]; exact Bool.false_ne_true)]
        exact ht
      · rw [hstore, if_neg (by rw [hne]; exact Bool.false_ne_true)]
        simp only [List.filter_append, filter_map_toMilvus, hc]
        rfl

/-- C1 witness: against a store holding the article with link "a", a batch
carrying a conflicting rewrite of "a" and a fresh article with link "b"
inserts exactly one row for "b" and produces exactly one embedding insert
tagged with its generated id. -/
theorem c1_id_gated_embedding_witness :
    ∃ (i : Nat) (a0 : NewsRec),
      a0 ∈ [{ title := .jstr "t2", link := .jstr "a", summary := .jstr "s2",
              published_date := none, source := .jstr "x" },
            { title := .jstr "t3", link := .jstr "b", summary := .jstr "s3",
              published_date := none, source := .jstr "x" }]
      ∧ a0.link = .jstr "b"
      ∧ (store_news_in_postgres none false
          ⟨[⟨0, { title := .jstr "t1", link := .jstr "a", summary := .jstr "s1",
                  published_date := none, source := .jstr "x" }⟩], 1, [], ProcessingStats.init⟩
          [{ title := .jstr "t2", link := .jstr "a", summary := .jstr "s2",
             published_date := none, source := .jstr "x" },
           { title := .jstr "t3", link := .jstr "b", summary := .jstr "s3",
             published_date := none, source := .jstr "x" }]).table.filter
          (fun r => r.art.link = .jstr "b") = [⟨i, a0⟩]
      ∧ (store_news_in_postgres none false
          ⟨[⟨0, { title := .jstr "t1", link := .jstr "a", summary := .jstr "s1",
                  published_date := none, source := .jstr "x" }⟩], 1, [], ProcessingStats.init⟩
          [{ title := .jstr "t2", link := .jstr "a", summary := .jstr "s2",
             published_date := none, source := .jstr "x" },
           { title := .jstr "t3", link := .jstr "b", summary := .jstr "s3",
             published_date := none, source := .jstr "x" }]).milvus.filter
          (fun m => m.link = .jstr "b")
        = ([] : List MilvusRow).filter (fun m => m.link = .jstr "b")
          ++ [toMilvusRow ⟨i, a0⟩] :=
  (c1_id_gated_embedding
    [⟨0, { title := .jstr "t1", link := .jstr "a", summary := .jstr "s1",
           published_date := none, source := .jstr "x" }⟩] 1 [] ProcessingStats.init
    [{ title := .jstr "t2", link := .jstr "a", summary := .jstr "s2",
       published_date := none, source := .jstr "x" },
     { title := .jstr "t3", link := .jstr "b", summary := .jstr "s3",
       published_date := none, source := .jstr "x" }]
    (.jstr "b")).2 (by decide) (by decide)

end BitRag
